import Mathlib

/-!
Shallow embedding of the core of the `visuals` fractal renderer
(crates `fractal-core`, `fractal-app`, `fractal-gpu`), together with
theorems settling the specification claims about it.

32-bit floats of the source are modelled as exact reals; `u32`/`u64`
counters as `Nat`.  Definitions come first, then the theorems.
-/

namespace Visuals

noncomputable section

/-! ## Params (`fractal-core/src/lib.rs`)

The `fields : HashMap<String, f32>` map is modelled as an association
list whose `set` replaces in place, matching `HashMap::insert`
observationally (`get` sees the last write; absent keys default).
-/

/-- `HashMap::get(key)` on the fields map: first binding of the key, if any. -/
def lookupField : List (String × ℝ) → String → Option ℝ
  | [], _ => none
  | (k', v) :: rest, k => if k' = k then some v else lookupField rest k

/-- `HashMap::insert(key, value)`: replace the binding if present, else add it. -/
def setField : List (String × ℝ) → String → ℝ → List (String × ℝ)
  | [], k, v => [(k, v)]
  | (k', v') :: rest, k, v =>
      if k' = k then (k, v) :: rest else (k', v') :: setField rest k v

/-- `Params` — the shared mutable state passed through the pipeline every frame. -/
structure Params where
  fields : List (String × ℝ)
  time : ℝ
  frame : ℕ
  zoom : ℝ
  center_x : ℝ
  center_y : ℝ
  max_iter : ℕ
  mouse_x : ℝ
  mouse_y : ℝ

/-- `impl Default for Params`. -/
def Params.default : Params where
  fields := []
  time := 0.0
  frame := 0
  zoom := 1.0
  center_x := -0.5
  center_y := 0.0
  max_iter := 100
  mouse_x := 0.0
  mouse_y := 0.0

/-- `Params::get`: `*self.fields.get(key).unwrap_or(&0.0)`. -/
def Params.get (p : Params) (k : String) : ℝ :=
  (lookupField p.fields k).getD 0.0

/-- `Params::set`: `self.fields.insert(key.into(), value)`. -/
def Params.set (p : Params) (k : String) (v : ℝ) : Params :=
  { p with fields := setField p.fields k v }

/-! ## Modulators (`fractal-core/src/modulators.rs`)

`Box<dyn Modulator>` is closed over the repository's concrete
implementations, so the trait object becomes an inductive type.  A
`Route` of the `ModMatrix` is the tuple
`(modulator, target, min, max)`.
-/

/-- `std::f32::consts::TAU`, idealised as the exact real 2π. -/
def TAU : ℝ := 2 * Real.pi

inductive Waveform where
  | Sine
  | Triangle
  | Square
  | Saw

inductive Modulator where
  | lfo (target : String) (waveform : Waveform) (frequency amplitude offset : ℝ) :
      Modulator
  | randomWalk (target : String) (speed : ℝ) : Modulator
  | mouseMod (target_x target_y : Option String) : Modulator
  | modMatrix (routes : List (Modulator × String × ℝ × ℝ)) : Modulator

mutual

/-- `Modulator::modulate` for each concrete implementation, transcribed from
`modulators.rs`. -/
def Modulator.modulate : Modulator → Params → Params
  | .lfo target waveform frequency amplitude offset, p =>
      let phase := p.time * frequency * TAU
      let raw := match waveform with
        | .Sine => Real.sin phase
        | .Triangle =>
            2.0 * |phase / TAU - ⌊phase / TAU + 0.5⌋| * 2.0 - 1.0
        | .Square => if Real.sin phase ≥ 0.0 then 1.0 else -1.0
        | .Saw => 2.0 * (phase / TAU - ⌊phase / TAU⌋) - 1.0
      p.set target (offset + raw * amplitude)
  | .randomWalk target speed, p =>
      let drift := Real.sin (p.time * speed * 0.37 + 1.618) * 0.5
      p.set target drift
  | .mouseMod target_x target_y, p =>
      let p1 := match target_x with
        | some key => p.set key (p.mouse_x * 2.0 - 1.0)
        | none => p
      match target_y with
        | some key => p1.set key (p1.mouse_y * 2.0 - 1.0)
        | none => p1
  | .modMatrix routes, p => runRoutes routes p

/-- The `for route in &self.routes` loop of `ModMatrix::modulate`: run the
inner modulator into a temporary clone of the store, read back the raw output
at the route target, scale to `[min, max]`, write to the real store. -/
def runRoutes : List (Modulator × String × ℝ × ℝ) → Params → Params
  | [], p => p
  | (m, target, mn, mx) :: rest, p =>
      let tmp := Modulator.modulate m p
      let raw := tmp.get target
      let scaled := mn + (raw * 0.5 + 0.5) * (mx - mn)
      runRoutes rest (p.set target scaled)

end

/-- The keys a modulator's configuration declares as its write targets. -/
def Modulator.targets : Modulator → List String
  | .lfo target _ _ _ _ => [target]
  | .randomWalk target _ => [target]
  | .mouseMod target_x target_y => target_x.toList ++ target_y.toList
  | .modMatrix routes => routes.map (fun r => r.2.1)

/-- Agreement of two stores on everything except the open fields map:
elapsed time, frame counter, view transform, iteration bound, pointer. -/
def FixedEq (p q : Params) : Prop :=
  p.time = q.time ∧ p.frame = q.frame ∧ p.zoom = q.zoom ∧
  p.center_x = q.center_x ∧ p.center_y = q.center_y ∧
  p.max_iter = q.max_iter ∧ p.mouse_x = q.mouse_x ∧ p.mouse_y = q.mouse_y

/-- The raw waveform value from the spec's words, given
`phase = time * frequency * 2π`: sine is `sin(phase)`; square is `+1` when
`sin(phase) ≥ 0` and `-1` otherwise; saw is `2*frac(phase/2π) - 1` with
`frac` the fractional part after flooring; triangle is
`4*|f - floor(f + 0.5)| - 1` with `f = phase/2π`. -/
def specLfoRaw : Waveform → ℝ → ℝ
  | .Sine, phase => Real.sin phase
  | .Square, phase => if 0 ≤ Real.sin phase then 1 else -1
  | .Saw, phase => 2 * Int.fract (phase / (2 * Real.pi)) - 1
  | .Triangle, phase =>
      4 * |phase / (2 * Real.pi) - ⌊phase / (2 * Real.pi) + 0.5⌋| - 1

/-- The spec's `clamp(x, lo, hi)` (`f32::clamp`). -/
def clampSpec (x lo hi : ℝ) : ℝ := if x < lo then lo else if hi < x then hi else x

/-! ## Generators, effects and the Patch (`fractal-core`) -/

inductive GeneratorKind where
  | Mandelbrot
  | Julia
  | BurningShip
  | NoiseField

inductive ColorScheme where
  | Classic
  | Fire
  | Ocean
  | Psychedelic

inductive EffectKind where
  | colorMap (scheme : ColorScheme)
  | ripple (frequency amplitude speed : ℝ)
  | echo (layers : ℕ) (offset decay : ℝ)
  | hueShift (amount : ℝ)
  | brightnessContrast (brightness contrast : ℝ)
  | motionBlur (opacity : ℝ)

/-- A `Box<dyn Generator>`: its `kind()` tag and its `gen_param_keys()` list
(the `Params` fields that affect the generator output, used for cache
invalidation). -/
structure Generator where
  kind : GeneratorKind
  gen_param_keys : List String

def MandelbrotGen : Generator := ⟨.Mandelbrot, []⟩

def JuliaGen : Generator := ⟨.Julia, ["julia_cx", "julia_cy"]⟩

def BurningShipGen : Generator := ⟨.BurningShip, []⟩

def NoiseFieldGen : Generator := ⟨.NoiseField, []⟩

/-- A `Box<dyn Effect>`: its `kind(&self, params)` resolution function. -/
def Effect : Type := Params → EffectKind

/-- `Patch` (`fractal-core/src/patch.rs`). -/
structure Patch where
  generator : Generator
  effects : List Effect
  modulators : List Modulator
  params : Params
  last_gen_params : Option (List (String × ℝ))

def Patch.new (generator : Generator) (params : Params) : Patch :=
  ⟨generator, [], [], params, none⟩

def Patch.add_effect (patch : Patch) (effect : Effect) : Patch :=
  { patch with effects := patch.effects ++ [effect] }

def Patch.add_modulator (patch : Patch) (modulator : Modulator) : Patch :=
  { patch with modulators := patch.modulators ++ [modulator] }

/-- `Patch::tick`: advance time and frame, then apply all modulators in
declared order. -/
def Patch.tick (patch : Patch) (dt : ℝ) : Patch :=
  { patch with
      params := patch.modulators.foldl (fun p m => m.modulate p)
        { patch.params with
            time := patch.params.time + dt,
            frame := patch.params.frame + 1 } }

/-- The snapshot `Patch::generator_dirty` compares: the value of every
declared generator key, followed by the four structural values. -/
def genSnapshot (g : Generator) (p : Params) : List (String × ℝ) :=
  g.gen_param_keys.map (fun k => (k, p.get k)) ++
    [("zoom", p.zoom), ("center_x", p.center_x),
     ("center_y", p.center_y), ("max_iter", (p.max_iter : ℝ))]

/-- `Patch::generator_dirty`: returns the dirty flag and the patch with the
(possibly replaced) snapshot cache. -/
def Patch.generator_dirty (patch : Patch) : Bool × Patch :=
  let full := genSnapshot patch.generator patch.params
  let dirty := decide (patch.last_gen_params ≠ some full)
  (dirty, if dirty then { patch with last_gen_params := some full } else patch)

/-! ## Input handling (`fractal-app/src/input.rs`, `app.rs`) -/

/-- `apply_zoom`: zoom in 2× centred on a normalised screen position,
returning `(new_center_x, new_center_y, new_zoom)`. -/
def apply_zoom (cx cy zoom norm_x norm_y aspect : ℝ) : ℝ × ℝ × ℝ :=
  let scale := 4.0 / zoom
  let new_cx := cx + (norm_x - 0.5) * scale * aspect
  let new_cy := cy + (norm_y - 0.5) * scale
  (new_cx, new_cy, zoom * 2.0)

/-- `n` repeated point-zooms at the exact normalised centre `(0.5, 0.5)`. -/
def iterCenterZoom (aspect : ℝ) : ℕ → ℝ × ℝ × ℝ → ℝ × ℝ × ℝ
  | 0, s => s
  | n + 1, s =>
      let s' := iterCenterZoom aspect n s
      apply_zoom s'.1 s'.2.1 s'.2.2 0.5 0.5 aspect

/-- `clamp_iterations`: `iter.clamp(20, 500)` on `u32`. -/
def clamp_iterations (iter : ℕ) : ℕ :=
  if iter < 20 then 20 else if 500 < iter then 500 else iter

def U32_MAX : ℕ := 2 ^ 32 - 1

/-- `u32::saturating_add`. -/
def saturating_add (a b : ℕ) : ℕ := min (a + b) U32_MAX

/-- The two iteration-count actions of `InputAction`. -/
inductive IterAction where
  | iterationsUp
  | iterationsDown

/-- The `IterationsUp` / `IterationsDown` arms of `App::handle_action`:
`max_iter = clamp_iterations(max_iter.saturating_add(10))`, respectively
`saturating_sub(10)` (truncated `Nat` subtraction is exactly saturating). -/
def handle_action_iter : IterAction → Params → Params
  | .iterationsUp, p =>
      { p with max_iter := clamp_iterations (saturating_add p.max_iter 10) }
  | .iterationsDown, p =>
      { p with max_iter := clamp_iterations (p.max_iter - 10) }

/-! ## The effect dispatch chain (`fractal-gpu/src/effect_pipeline.rs`)

Image contents are modelled symbolically: an effect pass writes the free
term `effectApplied kind input`, so reads/writes of the ping-pong pair can
be traced exactly.
-/

/-- Abstract image contents: the generator's output, the undefined initial
contents of the two ping-pong textures, or the result of an effect pass on
an input image. -/
inductive Image where
  | genOutput : Image
  | texInitA : Image
  | texInitB : Image
  | effectApplied (kind : EffectKind) (input : Image) : Image

/-- `PingPong`: two storage textures that swap roles each effect pass;
`current = false` means A is the current read target, `true` means B is. -/
structure PingPong where
  tex_a : Image
  tex_b : Image
  current : Bool

def PingPong.read_view (pp : PingPong) : Image :=
  if pp.current then pp.tex_b else pp.tex_a

def PingPong.write_view (pp : PingPong) : Image :=
  if pp.current then pp.tex_a else pp.tex_b

/-- Store an image through the current write view. -/
def PingPong.store_write (pp : PingPong) (img : Image) : PingPong :=
  if pp.current then { pp with tex_a := img } else { pp with tex_b := img }

def PingPong.swap (pp : PingPong) : PingPong := { pp with current := !pp.current }

/-- The loop body of `EffectPass::dispatch_chain`: the `i == 0` test is
tracked by `first`; each pass reads `gen_view` (first pass) or
`pp.read_view()`, writes through `pp.write_view()`, then swaps.  Also
records each executed pass as `(read image, kind)`. -/
def dispatch_chain_aux :
    List EffectKind → Image → PingPong → Bool →
      PingPong × List (Image × EffectKind)
  | [], _, pp, _ => (pp, [])
  | kind :: rest, gen_view, pp, first =>
      let rd := if first then gen_view else pp.read_view
      let pp1 := (pp.store_write (Image.effectApplied kind rd)).swap
      let out := dispatch_chain_aux rest gen_view pp1 false
      (out.1, (rd, kind) :: out.2)

/-- `EffectPass::dispatch_chain`. -/
def dispatch_chain (effects : List EffectKind) (gen_view : Image)
    (pp : PingPong) : PingPong × List (Image × EffectKind) :=
  dispatch_chain_aux effects gen_view pp true

/-- `App::render` final view selection: the generator output when the chain
is empty, otherwise `pp.read_view()`. -/
def final_view (effects : List EffectKind) (gen_view : Image)
    (pp : PingPong) : Image :=
  match effects with
  | [] => gen_view
  | _ :: _ => (dispatch_chain effects gen_view pp).1.read_view

/-- Sequential application of the effect chain to the generator image. -/
def chainFold (gen_view : Image) (effects : List EffectKind) : Image :=
  effects.foldl (fun img kind => Image.effectApplied kind img) gen_view

/-- The trace the spec requires: the first effect reads the generator image;
every subsequent effect reads the previous effect's output. -/
def expectedTrace (gen_view : Image) : List EffectKind → List (Image × EffectKind)
  | [] => []
  | kind :: rest =>
      (gen_view, kind) :: expectedTrace (Image.effectApplied kind gen_view) rest

/-! # Theorems -/

/-! ## `get`/`set` lemmas -/

theorem lookupField_setField_self (l : List (String × ℝ)) (k : String) (v : ℝ) :
    lookupField (setField l k v) k = some v := by
  induction l with
  | nil => simp [setField, lookupField]
  | cons hd tl ih =>
      obtain ⟨k', v'⟩ := hd
      by_cases h : k' = k
      · simp [setField, lookupField, h]
      · simp [setField, lookupField, h, ih]

theorem lookupField_setField_ne (l : List (String × ℝ)) (k k' : String) (v : ℝ)
    (h : k' ≠ k) :
    lookupField (setField l k v) k' = lookupField l k' := by
  have hk : k ≠ k' := fun hh => h hh.symm
  induction l with
  | nil => simp [setField, lookupField, hk]
  | cons hd tl ih =>
      obtain ⟨a, b⟩ := hd
      by_cases ha : a = k
      · subst ha
        simp [setField, lookupField, hk]
      · simp only [setField, if_neg ha, lookupField]
        by_cases ha' : a = k'
        · simp [ha']
        · simp [ha', ih]

theorem get_set_self (p : Params) (k : String) (v : ℝ) :
    (p.set k v).get k = v := by
  simp [Params.get, Params.set, lookupField_setField_self]

theorem get_set_ne (p : Params) (k k' : String) (v : ℝ) (h : k' ≠ k) :
    (p.set k v).get k' = p.get k' := by
  simp [Params.get, Params.set, lookupField_setField_ne _ _ _ _ h]

theorem get_default (k : String) : Params.default.get k = 0.0 := by
  simp [Params.get, Params.default, lookupField]

theorem get_of_lookup_none (p : Params) (k : String)
    (h : lookupField p.fields k = none) : p.get k = 0.0 := by
  simp [Params.get, h]

/-! ## Modulator unfolding equations, one per constructor -/

theorem modulate_lfo (target : String) (waveform : Waveform)
    (frequency amplitude offset : ℝ) (p : Params) :
    (Modulator.lfo target waveform frequency amplitude offset).modulate p =
      p.set target (offset +
        (match waveform with
          | .Sine => Real.sin (p.time * frequency * TAU)
          | .Triangle =>
              2.0 * |p.time * frequency * TAU / TAU -
                ⌊p.time * frequency * TAU / TAU + 0.5⌋| * 2.0 - 1.0
          | .Square =>
              if Real.sin (p.time * frequency * TAU) ≥ 0.0 then 1.0 else -1.0
          | .Saw =>
              2.0 * (p.time * frequency * TAU / TAU -
                ⌊p.time * frequency * TAU / TAU⌋) - 1.0) * amplitude) := by
  rw [Modulator.modulate.eq_def]

theorem modulate_lfo_Sine (target : String) (frequency amplitude offset : ℝ)
    (p : Params) :
    (Modulator.lfo target .Sine frequency amplitude offset).modulate p =
      p.set target (offset + Real.sin (p.time * frequency * TAU) * amplitude) := by
  rw [Modulator.modulate.eq_def]

theorem modulate_lfo_Triangle (target : String) (frequency amplitude offset : ℝ)
    (p : Params) :
    (Modulator.lfo target .Triangle frequency amplitude offset).modulate p =
      p.set target (offset +
        (2.0 * |p.time * frequency * TAU / TAU -
          ⌊p.time * frequency * TAU / TAU + 0.5⌋| * 2.0 - 1.0) * amplitude) := by
  rw [Modulator.modulate.eq_def]

theorem modulate_lfo_Square (target : String) (frequency amplitude offset : ℝ)
    (p : Params) :
    (Modulator.lfo target .Square frequency amplitude offset).modulate p =
      p.set target (offset +
        (if Real.sin (p.time * frequency * TAU) ≥ 0.0 then (1.0 : ℝ) else -1.0) *
          amplitude) := by
  rw [Modulator.modulate.eq_def]

theorem modulate_lfo_Saw (target : String) (frequency amplitude offset : ℝ)
    (p : Params) :
    (Modulator.lfo target .Saw frequency amplitude offset).modulate p =
      p.set target (offset +
        (2.0 * (p.time * frequency * TAU / TAU -
          ⌊p.time * frequency * TAU / TAU⌋) - 1.0) * amplitude) := by
  rw [Modulator.modulate.eq_def]

theorem modulate_randomWalk (target : String) (speed : ℝ) (p : Params) :
    (Modulator.randomWalk target speed).modulate p =
      p.set target (Real.sin (p.time * speed * 0.37 + 1.618) * 0.5) := by
  rw [Modulator.modulate.eq_def]

theorem modulate_mouseMod (target_x target_y : Option String) (p : Params) :
    (Modulator.mouseMod target_x target_y).modulate p =
      (let p1 := match target_x with
        | some key => p.set key (p.mouse_x * 2.0 - 1.0)
        | none => p
      match target_y with
        | some key => p1.set key (p1.mouse_y * 2.0 - 1.0)
        | none => p1) := by
  rw [Modulator.modulate.eq_def]

theorem modulate_modMatrix (routes : List (Modulator × String × ℝ × ℝ))
    (p : Params) :
    (Modulator.modMatrix routes).modulate p = runRoutes routes p := by
  rw [Modulator.modulate.eq_def]

/-! ## Fixed-field and non-target preservation -/

theorem fixedEq_refl (p : Params) : FixedEq p p :=
  ⟨rfl, rfl, rfl, rfl, rfl, rfl, rfl, rfl⟩

theorem fixedEq_trans {p q r : Params} (h1 : FixedEq p q) (h2 : FixedEq q r) :
    FixedEq p r := by
  obtain ⟨a1, b1, c1, d1, e1, f1, g1, i1⟩ := h1
  obtain ⟨a2, b2, c2, d2, e2, f2, g2, i2⟩ := h2
  exact ⟨a1.trans a2, b1.trans b2, c1.trans c2, d1.trans d2,
    e1.trans e2, f1.trans f2, g1.trans g2, i1.trans i2⟩

theorem fixedEq_set (p : Params) (k : String) (v : ℝ) :
    FixedEq (p.set k v) p :=
  ⟨rfl, rfl, rfl, rfl, rfl, rfl, rfl, rfl⟩

theorem runRoutes_fixedEq (routes : List (Modulator × String × ℝ × ℝ))
    (p : Params) : FixedEq (runRoutes routes p) p := by
  induction routes generalizing p with
  | nil => exact fixedEq_refl p
  | cons hd rest ih =>
      obtain ⟨m, target, mn, mx⟩ := hd
      rw [runRoutes]
      exact fixedEq_trans (ih _) (fixedEq_set ..)

/-- Every concrete modulator leaves the fixed `Params` fields untouched. -/
theorem modulate_fixedEq (m : Modulator) (p : Params) :
    FixedEq (m.modulate p) p := by
  cases m with
  | lfo target waveform frequency amplitude offset =>
      rw [modulate_lfo]; exact fixedEq_set ..
  | randomWalk target speed =>
      rw [modulate_randomWalk]; exact fixedEq_set ..
  | mouseMod tx ty =>
      rw [modulate_mouseMod]
      cases tx <;> cases ty <;> exact ⟨rfl, rfl, rfl, rfl, rfl, rfl, rfl, rfl⟩
  | modMatrix routes =>
      rw [modulate_modMatrix]; exact runRoutes_fixedEq routes p

theorem foldl_modulate_fixedEq (ms : List Modulator) (p : Params) :
    FixedEq (ms.foldl (fun q m => m.modulate q) p) p := by
  induction ms generalizing p with
  | nil => exact fixedEq_refl p
  | cons m rest ih =>
      exact fixedEq_trans (ih _) (modulate_fixedEq m p)

theorem runRoutes_get_notTarget (routes : List (Modulator × String × ℝ × ℝ))
    (p : Params) (k : String) (hk : k ∉ routes.map (fun r => r.2.1)) :
    (runRoutes routes p).get k = p.get k := by
  induction routes generalizing p with
  | nil => rw [runRoutes]
  | cons hd rest ih =>
      obtain ⟨m, target, mn, mx⟩ := hd
      simp only [List.map_cons, List.mem_cons, not_or] at hk
      rw [runRoutes, ih _ hk.2, get_set_ne _ _ _ _ hk.1]

/-- A modulator writes only to its declared target keys: every other mapping
key reads back unchanged. -/
theorem modulate_get_notTarget (m : Modulator) (p : Params) (k : String)
    (hk : k ∉ m.targets) : (m.modulate p).get k = p.get k := by
  cases m with
  | lfo target waveform frequency amplitude offset =>
      simp only [Modulator.targets, List.mem_singleton] at hk
      rw [modulate_lfo, get_set_ne _ _ _ _ hk]
  | randomWalk target speed =>
      simp only [Modulator.targets, List.mem_singleton] at hk
      rw [modulate_randomWalk, get_set_ne _ _ _ _ hk]
  | mouseMod tx ty =>
      rw [modulate_mouseMod]
      cases tx <;> cases ty <;>
        simp only [Modulator.targets, Option.toList, List.mem_append,
          List.mem_singleton, List.not_mem_nil, not_or, List.nil_append,
          List.append_nil, or_false, false_or] at hk
      · rfl
      · exact get_set_ne _ _ _ _ hk
      · exact get_set_ne _ _ _ _ hk
      · rw [get_set_ne _ _ _ _ hk.2, get_set_ne _ _ _ _ hk.1]
  | modMatrix routes =>
      simp only [Modulator.targets] at hk
      rw [modulate_modMatrix]
      exact runRoutes_get_notTarget routes p k hk

/-! ## generator_dirty lemmas -/

theorem gd_fst_true_iff (patch : Patch) :
    (patch.generator_dirty).1 = true ↔
      patch.last_gen_params ≠ some (genSnapshot patch.generator patch.params) := by
  simp [Patch.generator_dirty]

theorem gd_fst_false_iff (patch : Patch) :
    (patch.generator_dirty).1 = false ↔
      patch.last_gen_params = some (genSnapshot patch.generator patch.params) := by
  simp [Patch.generator_dirty]

theorem gd_generator (patch : Patch) :
    (patch.generator_dirty).2.generator = patch.generator := by
  by_cases h : patch.last_gen_params = some (genSnapshot patch.generator patch.params) <;>
    simp [Patch.generator_dirty, h]

theorem gd_params (patch : Patch) :
    (patch.generator_dirty).2.params = patch.params := by
  by_cases h : patch.last_gen_params = some (genSnapshot patch.generator patch.params) <;>
    simp [Patch.generator_dirty, h]

theorem gd_cache (patch : Patch) :
    (patch.generator_dirty).2.last_gen_params =
      some (genSnapshot patch.generator patch.params) := by
  by_cases h : patch.last_gen_params = some (genSnapshot patch.generator patch.params) <;>
    simp [Patch.generator_dirty, h]

theorem map_eq_map_imp {α β : Type} (l : List α) (f g : α → β)
    (h : l.map f = l.map g) : ∀ a ∈ l, f a = g a :=
  List.map_eq_map_iff.mp h

/-! Snapshot computations under the relevant store updates (all hold by
reduction of the record updates). -/

theorem genSnapshot_zoom_update (g : Generator) (p : Params) (z : ℝ) :
    genSnapshot g { p with zoom := z } =
      g.gen_param_keys.map (fun k => (k, p.get k)) ++
        [("zoom", z), ("center_x", p.center_x),
         ("center_y", p.center_y), ("max_iter", (p.max_iter : ℝ))] := rfl

theorem genSnapshot_cx_update (g : Generator) (p : Params) (c : ℝ) :
    genSnapshot g { p with center_x := c } =
      g.gen_param_keys.map (fun k => (k, p.get k)) ++
        [("zoom", p.zoom), ("center_x", c),
         ("center_y", p.center_y), ("max_iter", (p.max_iter : ℝ))] := rfl

theorem genSnapshot_cy_update (g : Generator) (p : Params) (c : ℝ) :
    genSnapshot g { p with center_y := c } =
      g.gen_param_keys.map (fun k => (k, p.get k)) ++
        [("zoom", p.zoom), ("center_x", p.center_x),
         ("center_y", c), ("max_iter", (p.max_iter : ℝ))] := rfl

theorem genSnapshot_iter_update (g : Generator) (p : Params) (n : ℕ) :
    genSnapshot g { p with max_iter := n } =
      g.gen_param_keys.map (fun k => (k, p.get k)) ++
        [("zoom", p.zoom), ("center_x", p.center_x),
         ("center_y", p.center_y), ("max_iter", (n : ℝ))] := rfl

theorem genSnapshot_time_update (g : Generator) (p : Params) (t : ℝ) :
    genSnapshot g { p with time := t } = genSnapshot g p := rfl

theorem genSnapshot_set (g : Generator) (p : Params) (key : String) (v : ℝ) :
    genSnapshot g (p.set key v) =
      g.gen_param_keys.map (fun k => (k, (p.set key v).get k)) ++
        [("zoom", p.zoom), ("center_x", p.center_x),
         ("center_y", p.center_y), ("max_iter", (p.max_iter : ℝ))] := rfl

/-! ## Claim C9 -/

/-- C9: one `modulate` call of any concrete modulator variant writes only to
the target key(s) declared by its configuration: every other mapping key and
all fixed fields (time, frame counter, zoom, view center, iteration bound,
pointer position) are unchanged; `MouseModulator` writes
`mouse_x*2-1` / `mouse_y*2-1` to its configured x / y targets and performs no
write for an unset target. -/
theorem modulator_targets_c9 (m : Modulator) (p : Params) (k : String)
    (hk : k ∉ m.targets) (kx ky : String) (hne : kx ≠ ky) :
    FixedEq (m.modulate p) p
  ∧ (m.modulate p).get k = p.get k
  ∧ ((Modulator.mouseMod (some kx) (some ky)).modulate p).get kx =
      p.mouse_x * 2.0 - 1.0
  ∧ ((Modulator.mouseMod (some kx) (some ky)).modulate p).get ky =
      p.mouse_y * 2.0 - 1.0
  ∧ ((Modulator.mouseMod (some kx) none).modulate p).get kx =
      p.mouse_x * 2.0 - 1.0
  ∧ ((Modulator.mouseMod none (some ky)).modulate p).get ky =
      p.mouse_y * 2.0 - 1.0
  ∧ (Modulator.mouseMod none none).modulate p = p := by
  refine ⟨modulate_fixedEq m p, modulate_get_notTarget m p k hk, ?_, ?_, ?_, ?_, ?_⟩
  · rw [modulate_mouseMod]
    exact (get_set_ne _ _ _ _ hne).trans (get_set_self ..)
  · rw [modulate_mouseMod]; exact get_set_self ..
  · rw [modulate_mouseMod]; exact get_set_self ..
  · rw [modulate_mouseMod]; exact get_set_self ..
  · rw [modulate_mouseMod]

/-- Witness for C9 at a concrete modulator, store and non-target key. -/
theorem modulator_targets_c9_witness :
    FixedEq ((Modulator.lfo "a" .Sine 1 1 0).modulate Params.default)
      Params.default
  ∧ ((Modulator.lfo "a" .Sine 1 1 0).modulate Params.default).get "b" =
      Params.default.get "b"
  ∧ ((Modulator.mouseMod (some "x") (some "y")).modulate Params.default).get "x" =
      Params.default.mouse_x * 2.0 - 1.0 := by
  have h := modulator_targets_c9 (Modulator.lfo "a" .Sine 1 1 0) Params.default
    "b" (by simp [Modulator.targets]) "x" "y" (by simp)
  exact ⟨h.1, h.2.1, h.2.2.1⟩

/-! ## Claim C6 -/

/-- C6: an `Lfo` with target `k`, frequency `f`, amplitude `A`, offset `O`
writes to `k` exactly `O + A * raw`, where `raw` is the spec's waveform value
at phase `t*f*2π` for the store time `t`, for each of the four waveforms. -/
theorem lfo_waveforms_c6 (target : String) (w : Waveform)
    (frequency amplitude offset : ℝ) (p : Params) :
    ((Modulator.lfo target w frequency amplitude offset).modulate p).get target =
      offset + amplitude * specLfoRaw w (p.time * frequency * (2 * Real.pi)) := by
  cases w
  case Sine =>
    rw [modulate_lfo_Sine, get_set_self]
    simp only [specLfoRaw, TAU]
    ring
  case Square =>
    rw [modulate_lfo_Square, get_set_self]
    simp only [specLfoRaw, TAU, ge_iff_le]
    norm_num
  case Saw =>
    rw [modulate_lfo_Saw, get_set_self]
    simp only [specLfoRaw, TAU, Int.fract]
    ring
  case Triangle =>
    rw [modulate_lfo_Triangle, get_set_self]
    simp only [specLfoRaw, TAU]
    ring

/-! ## Claim C1 -/

/-- C1 counterexample: route an inner sine oscillator of amplitude 2
(raw output 2 at `time = 0.25`) into `[0, 1]`.  The code has no clamp:
it writes `0 + (2*0.5 + 0.5)*(1 - 0) = 1.5`, which is outside `[min, max]`
and differs from the claim's clamped formula (which would give 1). -/
theorem modmatrix_clamp_cex :
    ((Modulator.modMatrix [(Modulator.lfo "v" .Sine 1.0 2.0 0.0, "v", 0.0, 1.0)]).modulate
        { Params.default with time := 0.25 }).get "v" = 1.5
  ∧ (1.0 : ℝ) <
      ((Modulator.modMatrix [(Modulator.lfo "v" .Sine 1.0 2.0 0.0, "v", 0.0, 1.0)]).modulate
        { Params.default with time := 0.25 }).get "v"
  ∧ ((Modulator.modMatrix [(Modulator.lfo "v" .Sine 1.0 2.0 0.0, "v", 0.0, 1.0)]).modulate
        { Params.default with time := 0.25 }).get "v" ≠
      0.0 + (clampSpec 2.0 (-1.0) 1.0 * 0.5 + 0.5) * (1.0 - 0.0) := by
  have hphase : ({ Params.default with time := 0.25 } : Params).time * 1.0 * TAU =
      Real.pi / 2 := by
    show (0.25 : ℝ) * 1.0 * TAU = Real.pi / 2
    unfold TAU
    ring
  have hraw : ((Modulator.lfo "v" .Sine 1.0 2.0 0.0).modulate
      { Params.default with time := 0.25 }).get "v" = 2.0 := by
    rw [modulate_lfo_Sine, get_set_self, hphase, Real.sin_pi_div_two]
    norm_num
  have hout :
      ((Modulator.modMatrix [(Modulator.lfo "v" .Sine 1.0 2.0 0.0, "v", 0.0, 1.0)]).modulate
        { Params.default with time := 0.25 }).get "v" = 1.5 := by
    rw [modulate_modMatrix]
    simp only [runRoutes]
    rw [get_set_self, hraw]
    norm_num
  refine ⟨hout, ?_, ?_⟩
  · rw [hout]; norm_num
  · rw [hout]
    simp only [clampSpec]
    norm_num

/-- C1 (amended): for every `ModMatrix` route with bounds `[min, max]`,
`modulate` runs the inner modulator against an isolated copy of the store —
the real store enters the rest of the loop changed only by the single write
at the route target — reads back the inner modulator's raw output at the
route's target key, and writes `min + (raw*0.5 + 0.5) * (max - min)` with no
clamping; the written value lies within `[min, max]` provided `min ≤ max` and
the raw output lies in `[-1, 1]` (the oscillator convention), not for every
raw input. -/
theorem modmatrix_route_c1 (m : Modulator) (target : String) (mn mx : ℝ)
    (rest : List (Modulator × String × ℝ × ℝ)) (p : Params)
    (hle : mn ≤ mx) (hlo : -1 ≤ (m.modulate p).get target)
    (hhi : (m.modulate p).get target ≤ 1) :
    (Modulator.modMatrix ((m, target, mn, mx) :: rest)).modulate p =
      runRoutes rest (p.set target
        (mn + ((m.modulate p).get target * 0.5 + 0.5) * (mx - mn)))
  ∧ (p.set target
        (mn + ((m.modulate p).get target * 0.5 + 0.5) * (mx - mn))).get target =
      mn + ((m.modulate p).get target * 0.5 + 0.5) * (mx - mn)
  ∧ mn ≤ mn + ((m.modulate p).get target * 0.5 + 0.5) * (mx - mn)
  ∧ mn + ((m.modulate p).get target * 0.5 + 0.5) * (mx - mn) ≤ mx := by
  refine ⟨?_, get_set_self .., ?_, ?_⟩
  · rw [modulate_modMatrix]
    simp only [runRoutes]
  · nlinarith [(m.modulate p).get target]
  · nlinarith [(m.modulate p).get target]

/-- Witness for C1 (amended): an inner sine oscillator of amplitude 1 at
time 0 has raw output 0, and the route into `[10, 20]` writes 15. -/
theorem modmatrix_route_c1_witness :
    (Modulator.modMatrix [(Modulator.lfo "v" .Sine 1.0 1.0 0.0, "v", 10.0, 20.0)]).modulate
        Params.default =
      Params.default.set "v"
        (10.0 + (((Modulator.lfo "v" .Sine 1.0 1.0 0.0).modulate Params.default).get "v" * 0.5 + 0.5) *
          (20.0 - 10.0))
  ∧ (10.0 : ℝ) ≤
      10.0 + (((Modulator.lfo "v" .Sine 1.0 1.0 0.0).modulate Params.default).get "v" * 0.5 + 0.5) *
        (20.0 - 10.0) := by
  have hraw : ((Modulator.lfo "v" .Sine 1.0 1.0 0.0).modulate Params.default).get "v" = 0 := by
    rw [modulate_lfo_Sine, get_set_self]
    show (0.0 : ℝ) + Real.sin (0.0 * 1.0 * TAU) * 1.0 = 0
    norm_num
  have h := modmatrix_route_c1 (Modulator.lfo "v" .Sine 1.0 1.0 0.0) "v" 10.0 20.0 []
    Params.default (by norm_num) (by rw [hraw]; norm_num) (by rw [hraw]; norm_num)
  refine ⟨?_, h.2.2.1⟩
  rw [h.1]
  simp only [runRoutes]

/-! ## Claim C5 -/

/-- C5: for every ParameterStore, `get` on a key that was never set (absent
from the fields map, in particular on the fresh default store) returns exactly
0.0; `set` then `get` round-trips exactly; and a second `set` on the same key
overwrites the first (last-write-wins). -/
theorem params_get_set_c5 (p : Params) (k : String) (v1 v2 : ℝ)
    (h : lookupField p.fields k = none) :
    p.get k = 0.0
  ∧ (∀ (q : Params) (key : String) (value : ℝ), (q.set key value).get key = value)
  ∧ (∀ (q : Params) (key : String) (a b : ℝ), ((q.set key a).set key b).get key = b)
  ∧ ((p.set k v1).set k v2).get k = v2 := by
  refine ⟨get_of_lookup_none p k h, ?_, ?_, ?_⟩
  · intro q key value; exact get_set_self q key value
  · intro q key a b; exact get_set_self _ key b
  · exact get_set_self _ k v2

/-- Witness for C5 at a concrete store and key. -/
theorem params_get_set_c5_witness :
    Params.default.get "hue" = 0.0
  ∧ ((Params.default.set "hue" 1).set "hue" 2).get "hue" = 2 := by
  have h := params_get_set_c5 Params.default "hue" 1 2 (by simp [Params.default, lookupField])
  exact ⟨h.1, h.2.2.2⟩

/-! ## Claim C4 -/

/-- C4: for every Patch and `dt ≥ 0`, `tick(dt)` increments the store's
elapsed time by exactly `dt` and the frame counter by exactly 1 (no concrete
modulator touches either), then applies each modulator to the live store in
the order the modulators were added; the generator, effect list, modulator
list and snapshot cache are untouched. -/
theorem patch_tick_c4 (patch : Patch) (dt : ℝ) (h : 0 ≤ dt) :
    (patch.tick dt).params =
      patch.modulators.foldl (fun p m => m.modulate p)
        { patch.params with
            time := patch.params.time + dt,
            frame := patch.params.frame + 1 }
  ∧ (patch.tick dt).params.time = patch.params.time + dt
  ∧ (patch.tick dt).params.frame = patch.params.frame + 1
  ∧ (patch.tick dt).generator = patch.generator
  ∧ (patch.tick dt).effects = patch.effects
  ∧ (patch.tick dt).modulators = patch.modulators
  ∧ (patch.tick dt).last_gen_params = patch.last_gen_params := by
  have hf := foldl_modulate_fixedEq patch.modulators
    { patch.params with
        time := patch.params.time + dt,
        frame := patch.params.frame + 1 }
  exact ⟨rfl, hf.1, hf.2.1, rfl, rfl, rfl, rfl⟩

/-- Witness for C4: a concrete patch with one modulator ticked by 0.25. -/
theorem patch_tick_c4_witness :
    (((Patch.new MandelbrotGen Params.default).add_modulator
        (Modulator.randomWalk "d" 1.0)).tick 0.25).params.time =
      ((Patch.new MandelbrotGen Params.default).add_modulator
        (Modulator.randomWalk "d" 1.0)).params.time + 0.25
  ∧ (((Patch.new MandelbrotGen Params.default).add_modulator
        (Modulator.randomWalk "d" 1.0)).tick 0.25).params.frame =
      ((Patch.new MandelbrotGen Params.default).add_modulator
        (Modulator.randomWalk "d" 1.0)).params.frame + 1 := by
  have h := patch_tick_c4
    ((Patch.new MandelbrotGen Params.default).add_modulator
      (Modulator.randomWalk "d" 1.0)) 0.25 (by norm_num)
  exact ⟨h.2.1, h.2.2.1⟩

/-! ## Claim C7 -/

theorem apply_zoom_center (cx cy z aspect : ℝ) :
    apply_zoom cx cy z 0.5 0.5 aspect = (cx, cy, z * 2.0) := by
  simp [apply_zoom]

theorem iterCenterZoom_eq (aspect cx cy : ℝ) (n : ℕ) :
    iterCenterZoom aspect n (cx, cy, 1) = (cx, cy, (2 : ℝ) ^ n) := by
  induction n with
  | zero => rw [iterCenterZoom]; norm_num
  | succ n ih =>
      rw [iterCenterZoom, ih]
      show apply_zoom cx cy ((2 : ℝ) ^ n) 0.5 0.5 aspect = _
      rw [apply_zoom_center]
      rw [Prod.mk.injEq, Prod.mk.injEq]
      refine ⟨rfl, rfl, ?_⟩
      rw [pow_succ]
      norm_num

/-- C7: for every center, zoom `z > 0` and aspect ratio, a point-zoom at the
exact normalized center `(0.5, 0.5)` returns the center unchanged and a zoom
of exactly `2*z`; `n` repeated center point-zooms from zoom 1 yield `2^n`. -/
theorem apply_zoom_c7 (cx cy z aspect : ℝ) (hz : 0 < z) (n : ℕ) :
    apply_zoom cx cy z 0.5 0.5 aspect = (cx, cy, 2 * z)
  ∧ iterCenterZoom aspect n (cx, cy, 1) = (cx, cy, (2 : ℝ) ^ n) := by
  refine ⟨?_, iterCenterZoom_eq aspect cx cy n⟩
  rw [apply_zoom_center, Prod.mk.injEq, Prod.mk.injEq]
  refine ⟨rfl, rfl, by ring⟩

/-- Witness for C7 at a concrete view. -/
theorem apply_zoom_c7_witness :
    apply_zoom (-0.5) 0 1 0.5 0.5 (4.0 / 3.0) = (-0.5, 0, 2 * 1)
  ∧ iterCenterZoom (4.0 / 3.0) 3 (-0.5, 0, 1) = (-0.5, 0, (2 : ℝ) ^ 3) := by
  exact apply_zoom_c7 (-0.5) 0 1 (4.0 / 3.0) (by norm_num) 3

/-! ## Claim C8 -/

theorem clamp_iterations_bounds (n : ℕ) :
    20 ≤ clamp_iterations n ∧ clamp_iterations n ≤ 500 := by
  unfold clamp_iterations
  split_ifs <;> omega

/-- C8: `clamp_iterations` returns its input when it already lies in
`[20, 500]` and otherwise the nearer bound; after any `IterationsUp` or
`IterationsDown` action, the patch's iteration bound lies in `[20, 500]` and
no other store state changes. -/
theorem clamp_iterations_c8 (n : ℕ) (a : IterAction) (p : Params) :
    (20 ≤ n → n ≤ 500 → clamp_iterations n = n)
  ∧ (n < 20 → clamp_iterations n = 20)
  ∧ (500 < n → clamp_iterations n = 500)
  ∧ 20 ≤ (handle_action_iter a p).max_iter
  ∧ (handle_action_iter a p).max_iter ≤ 500
  ∧ (handle_action_iter a p).fields = p.fields
  ∧ (handle_action_iter a p).time = p.time
  ∧ (handle_action_iter a p).frame = p.frame
  ∧ (handle_action_iter a p).zoom = p.zoom
  ∧ (handle_action_iter a p).center_x = p.center_x
  ∧ (handle_action_iter a p).center_y = p.center_y
  ∧ (handle_action_iter a p).mouse_x = p.mouse_x
  ∧ (handle_action_iter a p).mouse_y = p.mouse_y := by
  refine ⟨?_, ?_, ?_, ?_, ?_, ?_, ?_, ?_, ?_, ?_, ?_, ?_, ?_⟩
  · intro h1 h2; unfold clamp_iterations; split_ifs <;> omega
  · intro h1; unfold clamp_iterations; split_ifs <;> omega
  · intro h1; unfold clamp_iterations; split_ifs <;> omega
  · cases a <;> exact (clamp_iterations_bounds _).1
  · cases a <;> exact (clamp_iterations_bounds _).2
  all_goals cases a <;> rfl

/-- Witness for C8 at concrete iteration counts and the up action. -/
theorem clamp_iterations_c8_witness :
    clamp_iterations 100 = 100
  ∧ 20 ≤ (handle_action_iter .iterationsUp Params.default).max_iter
  ∧ (handle_action_iter .iterationsUp Params.default).max_iter ≤ 500 := by
  have h := clamp_iterations_c8 100 .iterationsUp Params.default
  exact ⟨h.1 (by norm_num) (by norm_num), h.2.2.2.1, h.2.2.2.2.1⟩

/-! ## Claim C3 -/

theorem store_write_swap_read (pp : PingPong) (img : Image) :
    ((pp.store_write img).swap).read_view = img := by
  obtain ⟨a, b, c⟩ := pp
  cases c <;>
    simp [PingPong.store_write, PingPong.swap, PingPong.read_view]

theorem store_write_swap_current (pp : PingPong) (img : Image) :
    ((pp.store_write img).swap).current = !pp.current := by
  obtain ⟨a, b, c⟩ := pp
  cases c <;> simp [PingPong.store_write, PingPong.swap]

theorem swap_read_view (pp : PingPong) : pp.swap.read_view = pp.write_view := by
  obtain ⟨a, b, c⟩ := pp
  cases c <;> simp [PingPong.swap, PingPong.read_view, PingPong.write_view]

theorem swap_write_view (pp : PingPong) : pp.swap.write_view = pp.read_view := by
  obtain ⟨a, b, c⟩ := pp
  cases c <;> simp [PingPong.swap, PingPong.read_view, PingPong.write_view]

theorem dispatch_aux_trace (ks : List EffectKind) (gv : Image) (pp : PingPong) :
    (dispatch_chain_aux ks gv pp false).2 = expectedTrace pp.read_view ks := by
  induction ks generalizing pp with
  | nil => rfl
  | cons k rest ih =>
      simp only [dispatch_chain_aux, expectedTrace, if_neg Bool.false_ne_true,
        List.cons.injEq, true_and]
      rw [ih, store_write_swap_read]

theorem dispatch_aux_read (ks : List EffectKind) (gv : Image) (pp : PingPong) :
    (dispatch_chain_aux ks gv pp false).1.read_view =
      chainFold pp.read_view ks := by
  induction ks generalizing pp with
  | nil => rfl
  | cons k rest ih =>
      simp only [dispatch_chain_aux, if_neg Bool.false_ne_true, chainFold,
        List.foldl_cons]
      rw [ih, store_write_swap_read]
      rfl

theorem dispatch_aux_current (ks : List EffectKind) (gv : Image)
    (pp : PingPong) (first : Bool) :
    (dispatch_chain_aux ks gv pp first).1.current =
      if ks.length % 2 = 0 then pp.current else !pp.current := by
  induction ks generalizing pp first with
  | nil => rfl
  | cons k rest ih =>
      simp only [dispatch_chain_aux]
      rw [ih, store_write_swap_current]
      simp only [List.length_cons]
      by_cases h : rest.length % 2 = 0
      · have h2 : (rest.length + 1) % 2 ≠ 0 := by omega
        simp [h, h2]
      · have h2 : (rest.length + 1) % 2 = 0 := by omega
        simp [h, h2]

theorem dispatch_chain_cons (k : EffectKind) (rest : List EffectKind)
    (gv : Image) (pp : PingPong) :
    dispatch_chain (k :: rest) gv pp =
      ((dispatch_chain_aux rest gv
          ((pp.store_write (Image.effectApplied k gv)).swap) false).1,
       (gv, k) :: (dispatch_chain_aux rest gv
          ((pp.store_write (Image.effectApplied k gv)).swap) false).2) := rfl

theorem dispatch_chain_trace (effects : List EffectKind) (gv : Image)
    (pp : PingPong) :
    (dispatch_chain effects gv pp).2 = expectedTrace gv effects := by
  cases effects with
  | nil => rfl
  | cons k rest =>
      rw [dispatch_chain_cons]
      simp only [expectedTrace, List.cons.injEq, true_and]
      rw [dispatch_aux_trace, store_write_swap_read]

theorem final_view_eq_chainFold (effects : List EffectKind) (gv : Image)
    (pp : PingPong) :
    final_view effects gv pp = chainFold gv effects := by
  cases effects with
  | nil => rfl
  | cons k rest =>
      show (dispatch_chain (k :: rest) gv pp).1.read_view = _
      rw [dispatch_chain_cons]
      show (dispatch_chain_aux rest gv
          ((pp.store_write (Image.effectApplied k gv)).swap) false).1.read_view = _
      rw [dispatch_aux_read, store_write_swap_read]
      rfl

/-- C3: with an empty effect list `dispatch_chain` records no pass, leaves
the ping-pong state unchanged, and the generator image is presented as the
final image unchanged; with a non-empty list the first effect reads the
generator image and every subsequent effect reads the previous effect's
output (the recorded trace equals `expectedTrace`), the roles swap after each
pass (`swap` exchanges read and write views, and after `n` passes the
"current" flag is the initial one exactly when `n` is even), and the final
image is the most recently written buffer, exposed as `read_view`
(`final_view` equals the chain fold of all effects over the generator
image). -/
theorem dispatch_chain_c3 (effects : List EffectKind) (gv : Image)
    (pp : PingPong) :
    dispatch_chain [] gv pp = (pp, [])
  ∧ final_view [] gv pp = gv
  ∧ (dispatch_chain effects gv pp).2 = expectedTrace gv effects
  ∧ final_view effects gv pp = chainFold gv effects
  ∧ (dispatch_chain effects gv pp).1.current =
      (if effects.length % 2 = 0 then pp.current else !pp.current)
  ∧ pp.swap.read_view = pp.write_view
  ∧ pp.swap.write_view = pp.read_view :=
  ⟨rfl, rfl, dispatch_chain_trace effects gv pp,
    final_view_eq_chainFold effects gv pp,
    dispatch_aux_current effects gv pp true,
    swap_read_view pp, swap_write_view pp⟩

/-! ## Claim C2 -/

/-- C2: `generator_dirty()` returns true on a first call (no snapshot cached
yet); false on an immediate second call; true again after a change to zoom,
view center x or y, the iteration bound, or the value of a key in the
Generator's declared parameter-key list; false after only the elapsed-time
field changes; and after every call the stored snapshot equals the snapshot
computed from the current store (exact equality). -/
theorem patch_generator_dirty_c2 (patch : Patch) (z c1 c2 t v : ℝ)
    (mi : ℕ) (key : String) :
    (patch.last_gen_params = none → (patch.generator_dirty).1 = true)
  ∧ (((patch.generator_dirty).2).generator_dirty).1 = false
  ∧ (z ≠ patch.params.zoom →
      (({ (patch.generator_dirty).2 with
          params := { patch.params with zoom := z } }).generator_dirty).1 = true)
  ∧ (c1 ≠ patch.params.center_x →
      (({ (patch.generator_dirty).2 with
          params := { patch.params with center_x := c1 } }).generator_dirty).1 = true)
  ∧ (c2 ≠ patch.params.center_y →
      (({ (patch.generator_dirty).2 with
          params := { patch.params with center_y := c2 } }).generator_dirty).1 = true)
  ∧ (mi ≠ patch.params.max_iter →
      (({ (patch.generator_dirty).2 with
          params := { patch.params with max_iter := mi } }).generator_dirty).1 = true)
  ∧ (key ∈ patch.generator.gen_param_keys → v ≠ patch.params.get key →
      (({ (patch.generator_dirty).2 with
          params := patch.params.set key v }).generator_dirty).1 = true)
  ∧ (({ (patch.generator_dirty).2 with
        params := { patch.params with time := t } }).generator_dirty).1 = false
  ∧ (patch.generator_dirty).2.last_gen_params =
      some (genSnapshot patch.generator patch.params) := by
  refine ⟨?_, ?_, ?_, ?_, ?_, ?_, ?_, ?_, gd_cache patch⟩
  · intro h
    rw [gd_fst_true_iff, h]
    simp
  · rw [gd_fst_false_iff]
    show (patch.generator_dirty).2.last_gen_params =
      some (genSnapshot (patch.generator_dirty).2.generator
        (patch.generator_dirty).2.params)
    rw [gd_cache, gd_generator, gd_params]
  · intro hz
    rw [gd_fst_true_iff]
    show (patch.generator_dirty).2.last_gen_params ≠
      some (genSnapshot (patch.generator_dirty).2.generator
        { patch.params with zoom := z })
    rw [gd_cache, gd_generator, genSnapshot_zoom_update]
    intro hc
    simp only [Option.some.injEq, genSnapshot] at hc
    have h3 := List.append_cancel_left hc
    simp only [List.cons.injEq, Prod.mk.injEq, true_and, and_true] at h3
    exact hz h3.symm
  · intro hcx
    rw [gd_fst_true_iff]
    show (patch.generator_dirty).2.last_gen_params ≠
      some (genSnapshot (patch.generator_dirty).2.generator
        { patch.params with center_x := c1 })
    rw [gd_cache, gd_generator, genSnapshot_cx_update]
    intro hc
    simp only [Option.some.injEq, genSnapshot] at hc
    have h3 := List.append_cancel_left hc
    simp only [List.cons.injEq, Prod.mk.injEq, true_and, and_true] at h3
    exact hcx h3.symm
  · intro hcy
    rw [gd_fst_true_iff]
    show (patch.generator_dirty).2.last_gen_params ≠
      some (genSnapshot (patch.generator_dirty).2.generator
        { patch.params with center_y := c2 })
    rw [gd_cache, gd_generator, genSnapshot_cy_update]
    intro hc
    simp only [Option.some.injEq, genSnapshot] at hc
    have h3 := List.append_cancel_left hc
    simp only [List.cons.injEq, Prod.mk.injEq, true_and, and_true] at h3
    exact hcy h3.symm
  · intro hmi
    rw [gd_fst_true_iff]
    show (patch.generator_dirty).2.last_gen_params ≠
      some (genSnapshot (patch.generator_dirty).2.generator
        { patch.params with max_iter := mi })
    rw [gd_cache, gd_generator, genSnapshot_iter_update]
    intro hc
    simp only [Option.some.injEq, genSnapshot] at hc
    have h3 := List.append_cancel_left hc
    simp only [List.cons.injEq, Prod.mk.injEq, true_and, and_true,
      Nat.cast_inj] at h3
    exact hmi h3.symm
  · intro hkey hv
    rw [gd_fst_true_iff]
    show (patch.generator_dirty).2.last_gen_params ≠
      some (genSnapshot (patch.generator_dirty).2.generator
        (patch.params.set key v))
    rw [gd_cache, gd_generator, genSnapshot_set]
    intro hc
    simp only [Option.some.injEq, genSnapshot] at hc
    have h3 := List.append_cancel_right hc
    have h4 := map_eq_map_imp _ _ _ h3 key hkey
    simp only [Prod.mk.injEq, true_and] at h4
    rw [get_set_self] at h4
    exact hv h4.symm
  · rw [gd_fst_false_iff]
    show (patch.generator_dirty).2.last_gen_params =
      some (genSnapshot (patch.generator_dirty).2.generator
        { patch.params with time := t })
    rw [gd_cache, gd_generator]
    rfl

/-- Witness for C2: a fresh Julia patch; first call dirty, second clean,
dirty again after a zoom or declared-key change, clean after a pure time
change. -/
theorem patch_generator_dirty_c2_witness :
    ((Patch.new JuliaGen Params.default).generator_dirty).1 = true
  ∧ (((Patch.new JuliaGen Params.default).generator_dirty).2.generator_dirty).1 = false
  ∧ (({ ((Patch.new JuliaGen Params.default).generator_dirty).2 with
        params := { (Patch.new JuliaGen Params.default).params with
          zoom := 2 } }).generator_dirty).1 = true
  ∧ (({ ((Patch.new JuliaGen Params.default).generator_dirty).2 with
        params := (Patch.new JuliaGen Params.default).params.set
          "julia_cx" 1 }).generator_dirty).1 = true
  ∧ (({ ((Patch.new JuliaGen Params.default).generator_dirty).2 with
        params := { (Patch.new JuliaGen Params.default).params with
          time := 5 } }).generator_dirty).1 = false := by
  have h := patch_generator_dirty_c2 (Patch.new JuliaGen Params.default)
    2 0 0 5 1 7 "julia_cx"
  refine ⟨h.1 rfl, h.2.1, ?_, ?_, h.2.2.2.2.2.2.2.1⟩
  · refine h.2.2.1 ?_
    show (2 : ℝ) ≠ (1.0 : ℝ)
    norm_num
  · refine h.2.2.2.2.2.2.1 ?_ ?_
    · show "julia_cx" ∈ ["julia_cx", "julia_cy"]
      simp
    · show (1 : ℝ) ≠ Params.default.get "julia_cx"
      rw [get_default]
      norm_num

/-! ## Claim C10 -/

/-- C10: a newly constructed ParameterStore (`Params::default`) has an empty
key map, elapsed time 0.0, frame counter 0, zoom 1.0, view center
(-0.5, 0.0), iteration bound 100, and pointer position (0.0, 0.0); the
default view center is not the origin, and every key read on a fresh store
returns 0.0. -/
theorem params_default_c10 :
    Params.default.fields = []
  ∧ Params.default.time = 0.0
  ∧ Params.default.frame = 0
  ∧ Params.default.zoom = 1.0
  ∧ Params.default.center_x = -0.5
  ∧ Params.default.center_y = 0.0
  ∧ Params.default.max_iter = 100
  ∧ Params.default.mouse_x = 0.0
  ∧ Params.default.mouse_y = 0.0
  ∧ (Params.default.center_x, Params.default.center_y) ≠ ((0 : ℝ), (0 : ℝ))
  ∧ ∀ k : String, Params.default.get k = 0.0 := by
  refine ⟨rfl, rfl, rfl, rfl, rfl, rfl, rfl, rfl, rfl, ?_, get_default⟩
  simp [Params.default]
  norm_num

end

end Visuals
